import Mathlib

set_option linter.unusedSectionVars false

/-!
Verification of the `CircularBuffer<T>` ring buffer from `src/lib.rs`.

The buffer is embedded shallowly: the struct becomes a Lean structure over an
element type `α` (Rust's `T: Default + Clone` becomes `[Inhabited α]`, with
`default` standing for `T::default()`), the backing `Box<[T]>` becomes a
`List α` of length `capacity`, and every method that takes `&mut self` becomes
a function returning the updated buffer alongside the method's `Result`.  The
buffer component of the returned pair is the post-state even when the `Result`
is an error, mirroring the fact that in Rust the mutations performed before an
early return persist.  Methods taking `&self` (`peek`, `peek_many`, `size`,
`capacity`, `is_empty`, `is_full`, `to_string`) return no buffer, which records
that they cannot mutate the state.
-/

/-- The four error conditions of the Rust API, one per distinct `Err` string
returned by the source. -/
inductive BufError where
  | bufferFull
  | bufferEmpty
  | insufficientSpace
  | insufficientElements
deriving DecidableEq

/-- The `CircularBuffer<T>` struct: fixed capacity, backing storage, head
index, tracked next-free (tail) index, and current element count. -/
structure CircularBuffer (α : Type) where
  capacity : Nat
  buffer : List α
  index_start : Nat
  index_next_free : Nat
  size : Nat
deriving DecidableEq

namespace CircularBuffer

variable {α : Type} [Inhabited α]

/-- `CircularBuffer::new`: `capacity` default-initialized slots, both indices
and the size at zero. -/
def new (capacity : Nat) : CircularBuffer α :=
  { capacity := capacity
    buffer := List.replicate capacity default
    index_start := 0
    index_next_free := 0
    size := 0 }

/-- `is_empty`: the size is zero. -/
def is_empty (b : CircularBuffer α) : Bool :=
  b.size == 0

/-- `is_full`: the size equals the capacity. -/
def is_full (b : CircularBuffer α) : Bool :=
  b.size == b.capacity

/-- The private wrap-aware increment helper `increase_index`.  In Rust,
`self.capacity - 1` underflows (panics in debug builds) when `capacity == 0`;
here Nat subtraction truncates, so the zero-capacity claim is settled through
the `inc`-generic operation variants below, which show the helper is never
semantically reached on a zero-capacity buffer. -/
def increase_index (b : CircularBuffer α) (index : Nat) : Nat :=
  if index == b.capacity - 1 then 0 else index + 1

/-- `write`: on a non-full buffer, store the value at `index_next_free`,
advance `index_next_free`, increment `size`; on a full buffer, fail with
`BufferFull` leaving the state untouched. -/
def write (b : CircularBuffer α) (value : α) : Except BufError Unit × CircularBuffer α :=
  if !b.is_full then
    (Except.ok (),
      { b with
          buffer := b.buffer.set b.index_next_free value
          index_next_free := b.increase_index b.index_next_free
          size := b.size + 1 })
  else
    (Except.error BufError.bufferFull, b)

/-- The `for element in values` loop body of `write_many`: repeated single
writes, stopping at (and propagating) the first error. -/
def writeAll : CircularBuffer α → List α → Except BufError Unit × CircularBuffer α
  | b, [] => (Except.ok (), b)
  | b, v :: vs =>
    match write b v with
    | (Except.ok _, b1) => writeAll b1 vs
    | (Except.error e, b1) => (Except.error e, b1)

/-- `write_many`: guard `values.len() > capacity - size` (failing with
`InsufficientSpace`), then the write loop. -/
def write_many (b : CircularBuffer α) (values : List α) :
    Except BufError Unit × CircularBuffer α :=
  if values.length > b.capacity - b.size then
    (Except.error BufError.insufficientSpace, b)
  else
    writeAll b values

/-- `read`: on a non-empty buffer, take the element at `index_start`
(`mem::replace` leaves `default` in its slot), advance `index_start`,
decrement `size`; on an empty buffer fail with `BufferEmpty`. -/
def read (b : CircularBuffer α) : Except BufError α × CircularBuffer α :=
  if !b.is_empty then
    (Except.ok (b.buffer.getD b.index_start default),
      { b with
          buffer := b.buffer.set b.index_start default
          index_start := b.increase_index b.index_start
          size := b.size - 1 })
  else
    (Except.error BufError.bufferEmpty, b)

/-- The `for _ in 0..amount` loop of `read_many`: `n` sequential single reads,
collecting the results in order and propagating the first error. -/
def readLoop : CircularBuffer α → Nat → Except BufError (List α) × CircularBuffer α
  | b, 0 => (Except.ok [], b)
  | b, n + 1 =>
    match read b with
    | (Except.ok v, b1) =>
      match readLoop b1 n with
      | (Except.ok vs, b2) => (Except.ok (v :: vs), b2)
      | (Except.error e, b2) => (Except.error e, b2)
    | (Except.error e, b1) => (Except.error e, b1)

/-- `read_many`: guard `amount > size` (failing with `InsufficientElements`),
then the read loop. -/
def read_many (b : CircularBuffer α) (amount : Nat) :
    Except BufError (List α) × CircularBuffer α :=
  if amount > b.size then
    (Except.error BufError.insufficientElements, b)
  else
    readLoop b amount

/-- `peek`: the element at `index_start`, or `BufferEmpty`.  Takes `&self` in
Rust, hence no buffer in the return type: it cannot mutate. -/
def peek (b : CircularBuffer α) : Except BufError α :=
  if !b.is_empty then
    Except.ok (b.buffer.getD b.index_start default)
  else
    Except.error BufError.bufferEmpty

/-- The `for _ in 0..amount` loop of `peek_many`: clone `n` elements starting
at `index`, advancing with the wrap-aware helper. -/
def peekLoop (b : CircularBuffer α) (index : Nat) : Nat → List α
  | 0 => []
  | n + 1 => b.buffer.getD index default :: peekLoop b (b.increase_index index) n

/-- `peek_many`: guard `amount > size` (failing with `InsufficientElements`),
then clone `amount` elements from `index_start` on.  Takes `&self`: no
mutation possible. -/
def peek_many (b : CircularBuffer α) (amount : Nat) : Except BufError (List α) :=
  if amount > b.size then
    Except.error BufError.insufficientElements
  else
    Except.ok (peekLoop b b.index_start amount)

/-- `clear`: `while !is_empty { read().unwrap() }`.  Terminates because each
successful read decrements `size`. -/
def clear (b : CircularBuffer α) : CircularBuffer α :=
  if b.is_empty then b else clear (read b).2
termination_by b.size
decreasing_by
  simp only [read, is_empty] at *
  rename_i h
  simp only [Bool.not_eq_true, beq_eq_false_iff_ne, ne_eq] at h
  simp [h]
  omega

/-- The `ToString` impl: a bracketed, comma-separated rendering of all
physical slots `0 .. capacity`, printing a slot's element exactly when
`index_start <= i < index_next_free` and `"_"` otherwise. -/
def to_string [ToString α] (b : CircularBuffer α) : String :=
  let output :=
    (List.range b.capacity).foldl
      (fun output i =>
        let output :=
          if b.index_start ≤ i ∧ i < b.index_next_free then
            output ++ ToString.toString (b.buffer.getD i default)
          else
            output ++ "_"
        if i ≠ b.capacity - 1 then output ++ "," else output)
      "["
  output ++ "]"

/-! ### Helper-generic variants of the mutating operations

`increase_index` computes `capacity - 1`, which underflows in Rust when
`capacity == 0`.  To prove that this computation is never reached on a
zero-capacity buffer, each operation that calls the helper is restated with the
helper abstracted as a parameter `inc`; showing the result is the same for
*every* `inc` shows the helper's value (and hence its underflow) is never
consulted.  Each `...G` definition is the corresponding operation above with
`b.increase_index` replaced by `inc`, nothing else changed. -/

/-- `write` with the increment helper abstracted. -/
def writeG (inc : Nat → Nat) (b : CircularBuffer α) (value : α) :
    Except BufError Unit × CircularBuffer α :=
  if !b.is_full then
    (Except.ok (),
      { b with
          buffer := b.buffer.set b.index_next_free value
          index_next_free := inc b.index_next_free
          size := b.size + 1 })
  else
    (Except.error BufError.bufferFull, b)

/-- The `write_many` loop with the increment helper abstracted. -/
def writeAllG (inc : Nat → Nat) :
    CircularBuffer α → List α → Except BufError Unit × CircularBuffer α
  | b, [] => (Except.ok (), b)
  | b, v :: vs =>
    match writeG inc b v with
    | (Except.ok _, b1) => writeAllG inc b1 vs
    | (Except.error e, b1) => (Except.error e, b1)

/-- `write_many` with the increment helper abstracted. -/
def write_manyG (inc : Nat → Nat) (b : CircularBuffer α) (values : List α) :
    Except BufError Unit × CircularBuffer α :=
  if values.length > b.capacity - b.size then
    (Except.error BufError.insufficientSpace, b)
  else
    writeAllG inc b values

/-- `read` with the increment helper abstracted. -/
def readG (inc : Nat → Nat) (b : CircularBuffer α) :
    Except BufError α × CircularBuffer α :=
  if !b.is_empty then
    (Except.ok (b.buffer.getD b.index_start default),
      { b with
          buffer := b.buffer.set b.index_start default
          index_start := inc b.index_start
          size := b.size - 1 })
  else
    (Except.error BufError.bufferEmpty, b)

/-- The `read_many` loop with the increment helper abstracted. -/
def readLoopG (inc : Nat → Nat) :
    CircularBuffer α → Nat → Except BufError (List α) × CircularBuffer α
  | b, 0 => (Except.ok [], b)
  | b, n + 1 =>
    match readG inc b with
    | (Except.ok v, b1) =>
      match readLoopG inc b1 n with
      | (Except.ok vs, b2) => (Except.ok (v :: vs), b2)
      | (Except.error e, b2) => (Except.error e, b2)
    | (Except.error e, b1) => (Except.error e, b1)

/-- `read_many` with the increment helper abstracted. -/
def read_manyG (inc : Nat → Nat) (b : CircularBuffer α) (amount : Nat) :
    Except BufError (List α) × CircularBuffer α :=
  if amount > b.size then
    (Except.error BufError.insufficientElements, b)
  else
    readLoopG inc b amount

/-- The `peek_many` loop with the increment helper abstracted. -/
def peekLoopG (inc : Nat → Nat) (b : CircularBuffer α) (index : Nat) : Nat → List α
  | 0 => []
  | n + 1 => b.buffer.getD index default :: peekLoopG inc b (inc index) n

/-- `peek_many` with the increment helper abstracted. -/
def peek_manyG (inc : Nat → Nat) (b : CircularBuffer α) (amount : Nat) :
    Except BufError (List α) :=
  if amount > b.size then
    Except.error BufError.insufficientElements
  else
    Except.ok (peekLoopG inc b b.index_start amount)

/-- `clear` with the increment helper abstracted. -/
def clearG (inc : Nat → Nat) (b : CircularBuffer α) : CircularBuffer α :=
  if b.is_empty then b else clearG inc (readG inc b).2
termination_by b.size
decreasing_by
  simp only [readG, is_empty] at *
  rename_i h
  simp only [Bool.not_eq_true, beq_eq_false_iff_ne, ne_eq] at h
  simp [h]
  omega

/-! ### The logical window and the state invariant -/

/-- The live logical window of the buffer: the elements at physical positions
`(index_start + j) % capacity` for `j = 0, ..., size - 1`, oldest first.  This
is the derived view of the spec's data model against which FIFO behaviour is
stated. -/
def contents (b : CircularBuffer α) : List α :=
  (List.range b.size).map fun j => b.buffer.getD ((b.index_start + j) % b.capacity) default

/-- The representation invariant of a circular buffer: the storage has exactly
`capacity` slots, the size never exceeds the capacity, the head index is in
range (and zero for the degenerate zero-capacity buffer), and the tracked
next-free index always equals the derived end-of-data index
`(index_start + size) % capacity`. -/
structure Inv (b : CircularBuffer α) : Prop where
  hlen : b.buffer.length = b.capacity
  hsize : b.size ≤ b.capacity
  hstart : b.index_start < b.capacity ∨ (b.capacity = 0 ∧ b.index_start = 0)
  hnext : b.index_next_free = (b.index_start + b.size) % b.capacity

/-- The states reachable from `new capacity` through the public mutating
operations (the read-only operations `peek`, `peek_many`, `size`, `capacity`,
`is_empty`, `is_full` take `&self` and cannot produce new states). -/
inductive Reachable : CircularBuffer α → Prop where
  | new (capacity : Nat) : Reachable (new capacity)
  | write (b : CircularBuffer α) (v : α) : Reachable b → Reachable (write b v).2
  | write_many (b : CircularBuffer α) (vs : List α) :
      Reachable b → Reachable (write_many b vs).2
  | read (b : CircularBuffer α) : Reachable b → Reachable (read b).2
  | read_many (b : CircularBuffer α) (n : Nat) :
      Reachable b → Reachable (read_many b n).2
  | clear (b : CircularBuffer α) : Reachable b → Reachable (clear b)

/-! ### Spec-side renderings for the `to_string` claim -/

/-- Modelled from the spec: the claimed rendering rule for `to_string`, which
prints slot `i`'s element exactly when `start <= i < start + count` under "the
non-wrapping interpretation (no modular reduction of start+count)".  Identical
to `to_string` except for the upper bound of the live test. -/
def to_string_claim [ToString α] (b : CircularBuffer α) : String :=
  let output :=
    (List.range b.capacity).foldl
      (fun output i =>
        let output :=
          if b.index_start ≤ i ∧ i < b.index_start + b.size then
            output ++ ToString.toString (b.buffer.getD i default)
          else
            output ++ "_"
        if i ≠ b.capacity - 1 then output ++ "," else output)
      "["
  output ++ "]"

/-- The amended rendering rule: slot `i` is printed exactly when
`start <= i < (start + count) % capacity`, i.e. the upper bound is the tracked
next-free index, which wraps. -/
def to_string_wrapped [ToString α] (b : CircularBuffer α) : String :=
  let output :=
    (List.range b.capacity).foldl
      (fun output i =>
        let output :=
          if b.index_start ≤ i ∧ i < (b.index_start + b.size) % b.capacity then
            output ++ ToString.toString (b.buffer.getD i default)
          else
            output ++ "_"
        if i ≠ b.capacity - 1 then output ++ "," else output)
      "["
  output ++ "]"

/-! ### Basic lemmas -/

lemma headI_cons_tail {β : Type} [Inhabited β] (l : List β) (h : l ≠ []) :
    l.headI :: l.tail = l := by
  cases l with
  | nil => exact absurd rfl h
  | cons a t => rfl

lemma getD_set_ne (l : List α) {i j : Nat} (h : i ≠ j) (v d : α) :
    (l.set i v).getD j d = l.getD j d := by
  simp [List.getD_eq_getElem?_getD, List.getElem?_set_ne h]

lemma getD_set_self (l : List α) {i : Nat} (h : i < l.length) (v d : α) :
    (l.set i v).getD i d = v := by
  simp [List.getD_eq_getElem?_getD, List.getElem?_set_self h]

/-- Two distinct offsets into the logical window land on distinct physical
slots, because both offsets are below the capacity. -/
lemma window_index_ne (s : Nat) {cap j k : Nat} (hj : j < cap) (hk : k < cap)
    (hne : j ≠ k) : (s + j) % cap ≠ (s + k) % cap := by
  intro h
  have h2 : j % cap = k % cap := Nat.ModEq.add_left_cancel' s h
  rw [Nat.mod_eq_of_lt hj, Nat.mod_eq_of_lt hk] at h2
  exact hne h2

/-- On an in-range index, the wrap-aware increment is addition of one modulo
the capacity. -/
lemma increase_index_eq_mod (b : CircularBuffer α) {i : Nat} (hi : i < b.capacity) :
    b.increase_index i = (i + 1) % b.capacity := by
  unfold increase_index
  rcases eq_or_ne i (b.capacity - 1) with h | h
  · simp only [h, beq_self_eq_true, if_true]
    rw [show b.capacity - 1 + 1 = b.capacity by omega, Nat.mod_self]
  · have hb : (i == b.capacity - 1) = false := by simp [h]
    rw [hb]
    simp only [Bool.false_eq_true, if_false]
    rw [Nat.mod_eq_of_lt (by omega)]

lemma inv_start_lt {b : CircularBuffer α} (hI : Inv b) (hcap : 0 < b.capacity) :
    b.index_start < b.capacity := by
  rcases hI.hstart with h | h
  · exact h
  · omega

lemma inv_start_mod {b : CircularBuffer α} (hI : Inv b) :
    b.index_start % b.capacity = b.index_start := by
  rcases hI.hstart with h | h
  · exact Nat.mod_eq_of_lt h
  · simp [h.1, h.2]

lemma inv_new (c : Nat) : Inv (new c : CircularBuffer α) where
  hlen := by simp [new]
  hsize := by simp [new]
  hstart := by
    rcases Nat.eq_zero_or_pos c with h | h
    · exact Or.inr ⟨h, rfl⟩
    · exact Or.inl h
  hnext := by simp [new]

lemma contents_new (c : Nat) : contents (new c : CircularBuffer α) = [] := by
  simp [contents, new]

lemma contents_length (b : CircularBuffer α) : (contents b).length = b.size := by
  simp [contents]

lemma contents_empty {b : CircularBuffer α} (h : b.size = 0) : contents b = [] := by
  simp [contents, h]

/-! ### One-step unfolding lemmas for the single-element operations -/

lemma write_not_full {b : CircularBuffer α} (h : b.size ≠ b.capacity) (v : α) :
    write b v = (Except.ok (),
      { b with
          buffer := b.buffer.set b.index_next_free v
          index_next_free := b.increase_index b.index_next_free
          size := b.size + 1 }) := by
  simp [write, is_full, h]

lemma write_full {b : CircularBuffer α} (h : b.size = b.capacity) (v : α) :
    write b v = (Except.error BufError.bufferFull, b) := by
  simp [write, is_full, h]

lemma read_not_empty {b : CircularBuffer α} (h : b.size ≠ 0) :
    read b = (Except.ok (b.buffer.getD b.index_start default),
      { b with
          buffer := b.buffer.set b.index_start default
          index_start := b.increase_index b.index_start
          size := b.size - 1 }) := by
  simp [read, is_empty, h]

lemma read_empty {b : CircularBuffer α} (h : b.size = 0) :
    read b = (Except.error BufError.bufferEmpty, b) := by
  simp [read, is_empty, h]

lemma peek_not_empty {b : CircularBuffer α} (h : b.size ≠ 0) :
    peek b = Except.ok (b.buffer.getD b.index_start default) := by
  simp [peek, is_empty, h]

lemma peek_empty {b : CircularBuffer α} (h : b.size = 0) :
    peek b = Except.error BufError.bufferEmpty := by
  simp [peek, is_empty, h]

/-! ### State-transition lemmas -/

/-- A successful `write` preserves the invariant and appends the value to the
logical window. -/
lemma write_spec {b : CircularBuffer α} (hI : Inv b) (h : b.size < b.capacity) (v : α) :
    ∃ b', write b v = (Except.ok (), b') ∧ Inv b' ∧
      b'.capacity = b.capacity ∧ b'.index_start = b.index_start ∧
      b'.size = b.size + 1 ∧ b'.buffer.length = b.buffer.length ∧
      contents b' = contents b ++ [v] := by
  have hcap : 0 < b.capacity := by omega
  have hs : b.index_start < b.capacity := inv_start_lt hI hcap
  have hnf : b.index_next_free < b.capacity := by
    rw [hI.hnext]; exact Nat.mod_lt _ hcap
  refine ⟨_, write_not_full (by omega) v, ⟨?_, ?_, ?_, ?_⟩, rfl, rfl, rfl, ?_, ?_⟩
  · simpa using hI.hlen
  · simpa using h
  · exact Or.inl hs
  · show b.increase_index b.index_next_free = (b.index_start + (b.size + 1)) % b.capacity
    rw [increase_index_eq_mod b hnf, hI.hnext, Nat.mod_add_mod, Nat.add_assoc]
  · simp
  · show (List.range (b.size + 1)).map
        (fun j => (b.buffer.set b.index_next_free v).getD
          ((b.index_start + j) % b.capacity) default)
      = contents b ++ [v]
    rw [List.range_succ, List.map_append, List.map_cons, List.map_nil]
    congr 1
    · unfold contents
      apply List.map_congr_left
      intro j hj
      have hjn : j < b.size := List.mem_range.mp hj
      apply getD_set_ne
      rw [hI.hnext]
      exact (window_index_ne b.index_start (by omega) h (by omega)).symm
    · congr 1
      rw [hI.hnext]
      exact getD_set_self _ (by rw [hI.hlen]; exact Nat.mod_lt _ hcap) _ _

/-- The head of the logical window is the element stored at `index_start`. -/
lemma contents_headI {b : CircularBuffer α} (hI : Inv b) (h : 0 < b.size) :
    (contents b).headI = b.buffer.getD b.index_start default := by
  obtain ⟨k, hk⟩ : ∃ k, b.size = k + 1 := ⟨b.size - 1, by omega⟩
  unfold contents
  rw [hk, List.range_succ_eq_map, List.map_cons]
  simp only [List.headI, Nat.add_zero, inv_start_mod hI]

/-- A successful `read` preserves the invariant, returns the head of the
logical window, drops it from the window, and leaves `default` in its slot. -/
lemma read_spec {b : CircularBuffer α} (hI : Inv b) (h : 0 < b.size) :
    ∃ b', read b = (Except.ok ((contents b).headI), b') ∧ Inv b' ∧
      b'.capacity = b.capacity ∧ b'.size = b.size - 1 ∧
      b'.index_start = (b.index_start + 1) % b.capacity ∧
      b'.index_next_free = b.index_next_free ∧
      b'.buffer.length = b.buffer.length ∧
      b'.buffer = b.buffer.set b.index_start default ∧
      contents b' = (contents b).tail ∧
      (∀ p, b'.buffer.getD p default = b.buffer.getD p default ∨
            b'.buffer.getD p default = default) := by
  have hcap : 0 < b.capacity := by have := hI.hsize; omega
  have hs : b.index_start < b.capacity := inv_start_lt hI hcap
  obtain ⟨k, hk⟩ : ∃ k, b.size = k + 1 := ⟨b.size - 1, by omega⟩
  refine ⟨{ b with
      buffer := b.buffer.set b.index_start default
      index_start := b.increase_index b.index_start
      size := b.size - 1 }, ?_, ⟨?_, ?_, ?_, ?_⟩, rfl, rfl, ?_, rfl, ?_, rfl, ?_, ?_⟩
  · rw [contents_headI hI h]
    exact read_not_empty (by omega)
  · simpa using hI.hlen
  · show b.size - 1 ≤ b.capacity
    have := hI.hsize; omega
  · exact Or.inl (by
      show b.increase_index b.index_start < b.capacity
      rw [increase_index_eq_mod b hs]
      exact Nat.mod_lt _ hcap)
  · show b.index_next_free = (b.increase_index b.index_start + (b.size - 1)) % b.capacity
    rw [increase_index_eq_mod b hs, Nat.mod_add_mod,
      show b.index_start + 1 + (b.size - 1) = b.index_start + b.size by omega]
    exact hI.hnext
  · exact increase_index_eq_mod b hs
  · simp
  · show (List.range (b.size - 1)).map
        (fun j => (b.buffer.set b.index_start default).getD
          ((b.increase_index b.index_start + j) % b.capacity) default)
      = (contents b).tail
    unfold contents
    rw [hk, List.range_succ_eq_map, List.map_cons, List.tail_cons, List.map_map]
    simp only [show k + 1 - 1 = k from rfl, increase_index_eq_mod b hs]
    apply List.map_congr_left
    intro j hj
    have hjk : j < k := List.mem_range.mp hj
    have hidx : ((b.index_start + 1) % b.capacity + j) % b.capacity
        = (b.index_start + Nat.succ j) % b.capacity := by
      rw [Nat.mod_add_mod]; congr 1; omega
    rw [hidx]
    show (b.buffer.set b.index_start default).getD _ default = _
    apply getD_set_ne
    have hsj : Nat.succ j < b.capacity := by have := hI.hsize; omega
    have h0 := window_index_ne b.index_start hcap hsj (by omega)
    simpa [inv_start_mod hI] using h0
  · intro p
    rcases eq_or_ne b.index_start p with hp | hp
    · rw [← hp]
      exact Or.inr (getD_set_self _ (by rw [hI.hlen]; exact hs) _ _)
    · exact Or.inl (getD_set_ne _ hp _ _)

/-- The `write_many` loop: with room for all the values, it succeeds and
appends them, in order, to the logical window. -/
lemma writeAll_spec (vs : List α) :
    ∀ (b : CircularBuffer α), Inv b → b.size + vs.length ≤ b.capacity →
    ∃ b', writeAll b vs = (Except.ok (), b') ∧ Inv b' ∧
      b'.capacity = b.capacity ∧ b'.index_start = b.index_start ∧
      b'.size = b.size + vs.length ∧ b'.buffer.length = b.buffer.length ∧
      contents b' = contents b ++ vs := by
  induction vs with
  | nil =>
    intro b hI _
    exact ⟨b, rfl, hI, rfl, rfl, by simp, rfl, by simp⟩
  | cons v vs ih =>
    intro b hI hle
    obtain ⟨b1, he, hI1, hcap, hstart, hsz, hlen, hc⟩ :=
      write_spec hI (by simp at hle; omega) v
    obtain ⟨b', he', hI', hcap', hstart', hsz', hlen', hc'⟩ :=
      ih b1 hI1 (by simp at hle; omega)
    refine ⟨b', by simp [writeAll, he, he'], hI', by rw [hcap', hcap],
      by rw [hstart', hstart], by rw [hsz', hsz]; simp; omega,
      by rw [hlen', hlen], by rw [hc', hc]; simp⟩

/-- The `read_many` loop: with at least `n` live elements, it succeeds,
returns the oldest `n` in FIFO order, advances the head past them, and leaves
`default` in each vacated slot (every slot is either untouched or `default`).
-/
lemma readLoop_spec :
    ∀ (n : Nat) (b : CircularBuffer α), Inv b → n ≤ b.size →
    ∃ b', readLoop b n = (Except.ok ((contents b).take n), b') ∧ Inv b' ∧
      b'.capacity = b.capacity ∧ b'.buffer.length = b.buffer.length ∧
      b'.size = b.size - n ∧
      b'.index_start = (b.index_start + n) % b.capacity ∧
      b'.index_next_free = b.index_next_free ∧
      contents b' = (contents b).drop n ∧
      (∀ p, b'.buffer.getD p default = b.buffer.getD p default ∨
            b'.buffer.getD p default = default) ∧
      (∀ j, j < n → b'.buffer.getD ((b.index_start + j) % b.capacity) default = default) := by
  intro n
  induction n with
  | zero =>
    intro b hI _
    refine ⟨b, rfl, hI, rfl, rfl, by omega, ?_, rfl, by simp, fun p => Or.inl rfl,
      fun j hj => absurd hj (by omega)⟩
    rw [Nat.add_zero, inv_start_mod hI]
  | succ n ih =>
    intro b hI hle
    have hpos : 0 < b.size := by omega
    have hcap : 0 < b.capacity := by have := hI.hsize; omega
    have hs : b.index_start < b.capacity := inv_start_lt hI hcap
    obtain ⟨b1, he, hI1, hcap1, hsz1, hstart1, hnext1, hlen1, hbuf1, hc1, hslot1⟩ :=
      read_spec hI hpos
    obtain ⟨b', he', hI', hcap', hlen', hsz', hstart', hnext', hc', hslot', hdef'⟩ :=
      ih b1 hI1 (by omega)
    have hne : contents b ≠ [] := by
      intro hc0
      have := contents_length b
      rw [hc0] at this
      simp at this
      omega
    refine ⟨b', ?_, hI', by rw [hcap', hcap1], by rw [hlen', hlen1],
      by omega, ?_, by rw [hnext', hnext1], ?_, ?_, ?_⟩
    · have hval : readLoop b (n + 1)
          = (Except.ok ((contents b).headI :: (contents b1).take n), b') := by
        simp [readLoop, he, he']
      rw [hval]
      congr 1
      rw [hc1, ← List.take_succ_cons, headI_cons_tail _ hne]
    · rw [hstart', hstart1, hcap1, Nat.mod_add_mod]
      congr 1
      omega
    · rw [hc', hc1, ← List.drop_one, List.drop_drop,
        show 1 + n = n + 1 from Nat.add_comm 1 n]
    · intro p
      rcases hslot' p with hp | hp
      · rcases hslot1 p with hq | hq
        · exact Or.inl (by rw [hp, hq])
        · exact Or.inr (by rw [hp, hq])
      · exact Or.inr hp
    · intro j hj
      rcases Nat.eq_zero_or_pos j with hj0 | hj0
      · subst hj0
        have hb1 : b1.buffer.getD ((b.index_start + 0) % b.capacity) default = default := by
          rw [Nat.add_zero, inv_start_mod hI, hbuf1]
          exact getD_set_self _ (by rw [hI.hlen]; exact hs) _ _
        rcases hslot' ((b.index_start + 0) % b.capacity) with hp | hp
        · rw [hp, hb1]
        · exact hp
      · obtain ⟨j', rfl⟩ : ∃ j', j = j' + 1 := ⟨j - 1, by omega⟩
        have := hdef' j' (by omega)
        rw [hstart1, hcap1, Nat.mod_add_mod,
          show b.index_start + 1 + j' = b.index_start + (j' + 1) by omega] at this
        exact this

/-- The `peek_many` loop reads the window starting at `i` without mutating:
its result is the `getD` image of the offsets `i, i+1, ..., i+n-1` mod the
capacity. -/
lemma peekLoop_eq (b : CircularBuffer α) (hcap : 0 < b.capacity) :
    ∀ (n : Nat) (i : Nat), i < b.capacity →
    peekLoop b i n = (List.range n).map
      (fun j => b.buffer.getD ((i + j) % b.capacity) default) := by
  intro n
  induction n with
  | zero => intro i _; simp [peekLoop]
  | succ n ih =>
    intro i hi
    rw [peekLoop, List.range_succ_eq_map, List.map_cons, List.map_map]
    congr 1
    · rw [Nat.add_zero, Nat.mod_eq_of_lt hi]
    · rw [increase_index_eq_mod b hi, ih ((i + 1) % b.capacity) (Nat.mod_lt _ hcap)]
      apply List.map_congr_left
      intro j hj
      rw [Nat.mod_add_mod]
      congr 2
      omega

/-- `clear` on a buffer holding `n` elements is exactly `n` sequential single
reads: the while-loop coincides with the `read_many` loop at `n = size`. -/
lemma clear_eq_readLoop :
    ∀ (n : Nat) (b : CircularBuffer α), Inv b → b.size = n →
    clear b = (readLoop b n).2 := by
  intro n
  induction n with
  | zero =>
    intro b hI hsz
    rw [clear]
    simp [is_empty, hsz, readLoop]
  | succ n ih =>
    intro b hI hsz
    obtain ⟨b1, he, hI1, _, hsz1, _, _, _, _, _, _⟩ := read_spec hI (by omega)
    have h1 : clear b = clear b1 := by
      rw [clear]
      simp [is_empty, hsz, he]
    obtain ⟨b', he', _⟩ := readLoop_spec n b1 hI1 (by omega)
    rw [h1, ih b1 hI1 (by omega)]
    simp [readLoop, he, he']

/-! ### The invariant is preserved by every mutating operation -/

lemma inv_write (b : CircularBuffer α) (v : α) (hI : Inv b) : Inv (write b v).2 := by
  rcases eq_or_ne b.size b.capacity with h | h
  · rw [write_full h]; exact hI
  · obtain ⟨b', he, hI', _⟩ := write_spec hI (by have := hI.hsize; omega) v
    rw [he]; exact hI'

lemma inv_read (b : CircularBuffer α) (hI : Inv b) : Inv (read b).2 := by
  rcases Nat.eq_zero_or_pos b.size with h | h
  · rw [read_empty h]; exact hI
  · obtain ⟨b', he, hI', _⟩ := read_spec hI h
    rw [he]; exact hI'

lemma inv_write_many (b : CircularBuffer α) (vs : List α) (hI : Inv b) :
    Inv (write_many b vs).2 := by
  unfold write_many
  by_cases h : vs.length > b.capacity - b.size
  · simp only [h, if_true]; exact hI
  · simp only [h, if_false]
    obtain ⟨b', he, hI', _⟩ := writeAll_spec vs b hI (by have := hI.hsize; omega)
    rw [he]; exact hI'

lemma inv_read_many (b : CircularBuffer α) (n : Nat) (hI : Inv b) :
    Inv (read_many b n).2 := by
  unfold read_many
  by_cases h : n > b.size
  · simp only [h, if_true]; exact hI
  · simp only [h, if_false]
    obtain ⟨b', he, hI', _⟩ := readLoop_spec n b hI (by omega)
    rw [he]; exact hI'

lemma inv_clear (b : CircularBuffer α) (hI : Inv b) : Inv (clear b) := by
  rw [clear_eq_readLoop b.size b hI rfl]
  obtain ⟨b', he, hI', _⟩ := readLoop_spec b.size b hI (le_refl _)
  rw [he]; exact hI'

/-- Every state reachable from a `new` buffer satisfies the representation
invariant. -/
lemma reachable_inv {b : CircularBuffer α} (h : Reachable b) : Inv b := by
  induction h with
  | new c => exact inv_new c
  | write b v _ ih => exact inv_write b v ih
  | write_many b vs _ ih => exact inv_write_many b vs ih
  | read b _ ih => exact inv_read b ih
  | read_many b n _ ih => exact inv_read_many b n ih
  | clear b _ ih => exact inv_clear b ih

/-- A `peek_many` for at most `size` elements returns the oldest `amount`
elements of the logical window. -/
lemma peek_many_ok {b : CircularBuffer α} (hI : Inv b) {amount : Nat}
    (h : amount ≤ b.size) :
    peek_many b amount = Except.ok ((contents b).take amount) := by
  unfold peek_many
  rw [if_neg (by omega)]
  congr 1
  rcases Nat.eq_zero_or_pos amount with h0 | h0
  · subst h0; simp [peekLoop]
  · have hcap : 0 < b.capacity := by have := hI.hsize; omega
    have hs := inv_start_lt hI hcap
    rw [peekLoop_eq b hcap amount b.index_start hs]
    unfold contents
    rw [← List.map_take, List.take_range, inf_eq_left.mpr h]

/-! ### The claims -/

/-- C1: FIFO order with round-trip.  From any state reachable from `new C`
that is empty — wherever the internal indices have wrapped to — writing
`C = capacity` values (via `write_many`, i.e. repeated `write`) succeeds, and
then performing `C` reads (via `read_many`, i.e. repeated `read`) succeeds and
returns exactly those values in writing order.  The last two conjuncts state
the same round trip directly for the loops of repeated single writes/reads. -/
theorem claim1_fifo_round_trip (b : CircularBuffer α) (vs : List α)
    (hr : Reachable b) (hempty : b.size = 0) (hcap : 1 ≤ b.capacity)
    (hlen : vs.length = b.capacity) :
    (write_many b vs).1 = Except.ok () ∧
    (read_many (write_many b vs).2 b.capacity).1 = Except.ok vs ∧
    (writeAll b vs).1 = Except.ok () ∧
    (readLoop (writeAll b vs).2 b.capacity).1 = Except.ok vs := by
  have hI := reachable_inv hr
  obtain ⟨b1, he, hI1, hcap1, _, hsz1, _, hc1⟩ :=
    writeAll_spec vs b hI (by omega)
  have hwm : write_many b vs = (Except.ok (), b1) := by
    unfold write_many
    rw [if_neg (by omega), he]
  have hc1' : contents b1 = vs := by
    rw [hc1, contents_empty hempty]; simp
  obtain ⟨b2, he2, _⟩ := readLoop_spec b.capacity b1 hI1 (by omega)
  have htake : (contents b1).take b.capacity = vs := by
    rw [hc1', ← hlen, List.take_length]
  rw [htake] at he2
  refine ⟨by rw [hwm],
    by
      rw [hwm]
      show (read_many b1 b.capacity).1 = _
      unfold read_many
      rw [if_neg (by omega), he2],
    by rw [he],
    by
      rw [he]
      show (readLoop b1 b.capacity).1 = _
      rw [he2]⟩

/-- C1 witness: the round trip at capacity 2 with the values 10, 20. -/
theorem claim1_fifo_round_trip_witness :
    (write_many (new 2 : CircularBuffer Nat) [10, 20]).1 = Except.ok () ∧
    (read_many (write_many (new 2 : CircularBuffer Nat) [10, 20]).2 2).1
      = Except.ok [10, 20] ∧
    (writeAll (new 2 : CircularBuffer Nat) [10, 20]).1 = Except.ok () ∧
    (readLoop (writeAll (new 2 : CircularBuffer Nat) [10, 20]).2 2).1
      = Except.ok [10, 20] :=
  claim1_fifo_round_trip (new 2) [10, 20] (Reachable.new 2) rfl (by decide) rfl

/-- C2: `write_many` is all-or-nothing.  Under the invariant it fails with
`InsufficientSpace` exactly when the input is longer than the remaining room
`capacity - size`; on failure the returned state is the argument itself
(completely unchanged, every slot included); on success all values are
appended to the logical window in input order and the size grows by the input
length. -/
theorem claim2_write_many_atomic (b : CircularBuffer α) (vs : List α) (hI : Inv b) :
    ((write_many b vs).1 = Except.error BufError.insufficientSpace ↔
      b.capacity - b.size < vs.length) ∧
    (b.capacity - b.size < vs.length →
      write_many b vs = (Except.error BufError.insufficientSpace, b)) ∧
    (vs.length ≤ b.capacity - b.size →
      (write_many b vs).1 = Except.ok () ∧
      (write_many b vs).2.size = b.size + vs.length ∧
      (write_many b vs).2.index_start = b.index_start ∧
      (write_many b vs).2.capacity = b.capacity ∧
      contents (write_many b vs).2 = contents b ++ vs) := by
  by_cases h : b.capacity - b.size < vs.length
  · have h1 : write_many b vs = (Except.error BufError.insufficientSpace, b) := by
      unfold write_many; rw [if_pos h]
    exact ⟨by simp [h1, h], fun _ => h1, fun hk => absurd h (by omega)⟩
  · obtain ⟨b', he, _, hcap', hstart', hsz', _, hc'⟩ :=
      writeAll_spec vs b hI (by have := hI.hsize; omega)
    have h1 : write_many b vs = (Except.ok (), b') := by
      unfold write_many; rw [if_neg h, he]
    exact ⟨by simp [h1, h], fun hk => absurd hk h,
      fun _ => ⟨by rw [h1], by rw [h1]; exact hsz', by rw [h1]; exact hstart',
        by rw [h1]; exact hcap', by rw [h1]; exact hc'⟩⟩

/-- C2 witness: on a fresh capacity-1 buffer a two-element bulk write fails
leaving the state unchanged, and on a fresh capacity-2 buffer a one-element
bulk write succeeds, growing the window. -/
theorem claim2_write_many_atomic_witness :
    write_many (new 1 : CircularBuffer Nat) [7, 8]
      = (Except.error BufError.insufficientSpace, new 1) ∧
    (write_many (new 2 : CircularBuffer Nat) [7]).1 = Except.ok () ∧
    (write_many (new 2 : CircularBuffer Nat) [7]).2.size
      = (new 2 : CircularBuffer Nat).size + [7].length ∧
    contents (write_many (new 2 : CircularBuffer Nat) [7]).2
      = contents (new 2 : CircularBuffer Nat) ++ [7] :=
  ⟨(claim2_write_many_atomic (new 1) [7, 8] (inv_new 1)).2.1 (by decide),
    ((claim2_write_many_atomic (new 2) [7] (inv_new 2)).2.2 (by decide)).1,
    ((claim2_write_many_atomic (new 2) [7] (inv_new 2)).2.2 (by decide)).2.1,
    ((claim2_write_many_atomic (new 2) [7] (inv_new 2)).2.2 (by decide)).2.2.2.2⟩

/-- C3: the state invariant holds in every reachable state: for a buffer of
capacity at least 1 reachable from `new`, the size is at most the capacity,
both indices are in `[0, capacity)`, and the tracked next-free index equals
the derived end-of-data index `(index_start + size) % capacity`. -/
theorem claim3_invariant_reachable (b : CircularBuffer α) (hr : Reachable b)
    (hcap : 1 ≤ b.capacity) :
    b.size ≤ b.capacity ∧ b.index_start < b.capacity ∧
    b.index_next_free < b.capacity ∧
    b.index_next_free = (b.index_start + b.size) % b.capacity := by
  have hI := reachable_inv hr
  have hc : 0 < b.capacity := hcap
  exact ⟨hI.hsize, inv_start_lt hI hc,
    by rw [hI.hnext]; exact Nat.mod_lt _ hc, hI.hnext⟩

/-- C3 witness: the invariant at a wrapped state (capacity 2, two writes and
one read, so the head has moved off slot 0). -/
theorem claim3_invariant_reachable_witness :
    (read (write_many (new 2 : CircularBuffer Nat) [1, 2]).2).2.size
        ≤ (read (write_many (new 2 : CircularBuffer Nat) [1, 2]).2).2.capacity ∧
    (read (write_many (new 2 : CircularBuffer Nat) [1, 2]).2).2.index_start
        < (read (write_many (new 2 : CircularBuffer Nat) [1, 2]).2).2.capacity ∧
    (read (write_many (new 2 : CircularBuffer Nat) [1, 2]).2).2.index_next_free
        < (read (write_many (new 2 : CircularBuffer Nat) [1, 2]).2).2.capacity ∧
    (read (write_many (new 2 : CircularBuffer Nat) [1, 2]).2).2.index_next_free
        = ((read (write_many (new 2 : CircularBuffer Nat) [1, 2]).2).2.index_start
            + (read (write_many (new 2 : CircularBuffer Nat) [1, 2]).2).2.size)
          % (read (write_many (new 2 : CircularBuffer Nat) [1, 2]).2).2.capacity :=
  claim3_invariant_reachable _
    (Reachable.read _ (Reachable.write_many _ _ (Reachable.new 2))) (by decide)

/-- C4: `write` on a full buffer (`size == capacity`) fails with `BufferFull`
and the returned state is the argument itself — size, indices and every slot
unchanged; on any non-full buffer it succeeds and increments the size by
one. -/
theorem claim4_write_full_unchanged (b : CircularBuffer α) (v : α) :
    (b.size = b.capacity → write b v = (Except.error BufError.bufferFull, b)) ∧
    (b.size ≠ b.capacity →
      (write b v).1 = Except.ok () ∧ (write b v).2.size = b.size + 1) := by
  refine ⟨fun h => write_full h v, fun h => ?_⟩
  rw [write_not_full h v]
  exact ⟨rfl, rfl⟩

/-- C4 witness: writing to a full capacity-1 buffer fails and leaves it
unchanged; writing to a fresh capacity-1 buffer succeeds and bumps the size. -/
theorem claim4_write_full_unchanged_witness :
    write (write (new 1 : CircularBuffer Nat) 9).2 8
      = (Except.error BufError.bufferFull, (write (new 1 : CircularBuffer Nat) 9).2) ∧
    ((write (new 1 : CircularBuffer Nat) 9).1 = Except.ok () ∧
      (write (new 1 : CircularBuffer Nat) 9).2.size
        = (new 1 : CircularBuffer Nat).size + 1) :=
  ⟨(claim4_write_full_unchanged (write (new 1) 9).2 8).1 rfl,
    (claim4_write_full_unchanged (new 1) 9).2 (by decide)⟩

/-- C5: `read` and `peek` on an empty buffer fail with `BufferEmpty` leaving
the state unchanged (`read` returns the argument state, `peek` takes `&self`
and cannot mutate at all); on a non-empty buffer satisfying the invariant,
`read` returns the oldest element — the head of the logical window — removes
it (the window loses its head and the size drops by one), and `peek` returns
that same oldest element.  -/
theorem claim5_read_peek_empty (b : CircularBuffer α) :
    (b.size = 0 →
      read b = (Except.error BufError.bufferEmpty, b) ∧
      peek b = Except.error BufError.bufferEmpty) ∧
    (b.size ≠ 0 → Inv b →
      (read b).1 = Except.ok ((contents b).headI) ∧
      (read b).2.size = b.size - 1 ∧
      contents (read b).2 = (contents b).tail ∧
      peek b = Except.ok ((contents b).headI)) := by
  refine ⟨fun h => ⟨read_empty h, peek_empty h⟩, fun h hI => ?_⟩
  obtain ⟨b', he, _, _, hsz, _, _, _, _, hc, _⟩ := read_spec hI (by omega)
  refine ⟨by rw [he], by rw [he]; exact hsz, by rw [he]; exact hc, ?_⟩
  rw [peek_not_empty h, contents_headI hI (by omega)]

/-- C5 witness: the empty case on a fresh capacity-1 buffer and the non-empty
case on that buffer after writing 9. -/
theorem claim5_read_peek_empty_witness :
    (read (new 1 : CircularBuffer Nat) = (Except.error BufError.bufferEmpty, new 1) ∧
      peek (new 1 : CircularBuffer Nat) = Except.error BufError.bufferEmpty) ∧
    ((read (write (new 1 : CircularBuffer Nat) 9).2).1
        = Except.ok ((contents (write (new 1 : CircularBuffer Nat) 9).2).headI) ∧
      (read (write (new 1 : CircularBuffer Nat) 9).2).2.size
        = (write (new 1 : CircularBuffer Nat) 9).2.size - 1 ∧
      contents (read (write (new 1 : CircularBuffer Nat) 9).2).2
        = (contents (write (new 1 : CircularBuffer Nat) 9).2).tail ∧
      peek (write (new 1 : CircularBuffer Nat) 9).2
        = Except.ok ((contents (write (new 1 : CircularBuffer Nat) 9).2).headI)) :=
  ⟨(claim5_read_peek_empty (new 1)).1 rfl,
    (claim5_read_peek_empty (write (new 1) 9).2).2 (by decide)
      ⟨rfl, by decide, Or.inl (by decide), rfl⟩⟩

/-- C6: under the invariant, `read_many k` and `peek_many k` fail with
`InsufficientElements` exactly when `k > size`; on such a failure `read_many`
returns the argument state unchanged (`peek_many` takes `&self` and can never
change the state, whether it succeeds or fails). -/
theorem claim6_bulk_guards (b : CircularBuffer α) (k : Nat) (hI : Inv b) :
    ((read_many b k).1 = Except.error BufError.insufficientElements ↔ b.size < k) ∧
    (peek_many b k = Except.error BufError.insufficientElements ↔ b.size < k) ∧
    (b.size < k → (read_many b k).2 = b) := by
  by_cases h : b.size < k
  · have h1 : read_many b k = (Except.error BufError.insufficientElements, b) := by
      unfold read_many; rw [if_pos h]
    have h2 : peek_many b k = Except.error BufError.insufficientElements := by
      unfold peek_many; rw [if_pos h]
    exact ⟨by simp [h1, h], by simp [h2, h], fun _ => by rw [h1]⟩
  · obtain ⟨b', he, _⟩ := readLoop_spec k b hI (by omega)
    have h1 : read_many b k = (Except.ok ((contents b).take k), b') := by
      unfold read_many; rw [if_neg h, he]
    have h2 := peek_many_ok hI (show k ≤ b.size by omega)
    exact ⟨by rw [h1]; simp [h], by rw [h2]; simp [h], fun hk => absurd hk h⟩

/-- C6 witness: on a capacity-2 buffer holding one element, requesting two
elements fails and leaves the state unchanged; the iffs are instantiated at
`k = 2 > 1 = size`. -/
theorem claim6_bulk_guards_witness :
    ((read_many (write (new 2 : CircularBuffer Nat) 9).2 2).1
        = Except.error BufError.insufficientElements
      ↔ (write (new 2 : CircularBuffer Nat) 9).2.size < 2) ∧
    (peek_many (write (new 2 : CircularBuffer Nat) 9).2 2
        = Except.error BufError.insufficientElements
      ↔ (write (new 2 : CircularBuffer Nat) 9).2.size < 2) ∧
    ((write (new 2 : CircularBuffer Nat) 9).2.size < 2 →
      (read_many (write (new 2 : CircularBuffer Nat) 9).2 2).2
        = (write (new 2 : CircularBuffer Nat) 9).2) :=
  claim6_bulk_guards (write (new 2) 9).2 2 ⟨rfl, by decide, Or.inl (by decide), rfl⟩

/-- C7: under the invariant, for any `k <= size`, `peek_many k` returns copies
of the `k` oldest live elements in FIFO order — the first `k` elements of the
logical window — which is exactly what a successful `read_many k` returns from
the same state; `peek_many` takes `&self`, so the state is untouched. -/
theorem claim7_peek_many_fifo (b : CircularBuffer α) (k : Nat) (hI : Inv b)
    (h : k ≤ b.size) :
    peek_many b k = Except.ok ((contents b).take k) ∧
    (read_many b k).1 = Except.ok ((contents b).take k) := by
  obtain ⟨b', he, _⟩ := readLoop_spec k b hI h
  refine ⟨peek_many_ok hI h, ?_⟩
  unfold read_many
  rw [if_neg (by omega), he]

/-- C7 witness: peeking two of the two elements `[9, 11]` of a capacity-3
buffer agrees with reading them. -/
theorem claim7_peek_many_fifo_witness :
    peek_many (write_many (new 3 : CircularBuffer Nat) [9, 11]).2 2
      = Except.ok ((contents (write_many (new 3 : CircularBuffer Nat) [9, 11]).2).take 2) ∧
    (read_many (write_many (new 3 : CircularBuffer Nat) [9, 11]).2 2).1
      = Except.ok ((contents (write_many (new 3 : CircularBuffer Nat) [9, 11]).2).take 2) :=
  claim7_peek_many_fifo (write_many (new 3) [9, 11]).2 2
    ⟨rfl, by decide, Or.inl (by decide), rfl⟩ (by decide)

/-- C8: on every reachable state, `clear` (which terminates) empties the
buffer: afterwards `is_empty` holds and the size is 0; it is exactly one read
per live element (the `read_many` loop at `n = size`), so each live slot is
individually overwritten with the default value; the head is not reset to 0
but ends at the old `(index_start + size) % capacity`; capacity and storage
length are unchanged. -/
theorem claim8_clear_drains (b : CircularBuffer α) (hr : Reachable b) :
    is_empty (clear b) = true ∧
    (clear b).size = 0 ∧
    clear b = (readLoop b b.size).2 ∧
    (clear b).index_start = (b.index_start + b.size) % b.capacity ∧
    (clear b).capacity = b.capacity ∧
    (clear b).buffer.length = b.buffer.length ∧
    (∀ j, j < b.size →
      (clear b).buffer.getD ((b.index_start + j) % b.capacity) default = default) := by
  have hI := reachable_inv hr
  have hcl := clear_eq_readLoop b.size b hI rfl
  obtain ⟨b', he, hI', hcap, hlen, hsz, hstart, _, _, _, hdef⟩ :=
    readLoop_spec b.size b hI (le_refl _)
  have he2 : clear b = b' := by rw [hcl, he]
  rw [he2]
  exact ⟨by simp [is_empty, hsz], by omega, by rw [he], hstart, hcap, hlen, hdef⟩

/-- C8 witness: clearing a capacity-2 buffer holding `[1, 2]` empties it, the
head lands on `(0 + 2) % 2 = 0`, and both slots hold the default value. -/
theorem claim8_clear_drains_witness :
    is_empty (clear (write_many (new 2 : CircularBuffer Nat) [1, 2]).2) = true ∧
    (clear (write_many (new 2 : CircularBuffer Nat) [1, 2]).2).size = 0 ∧
    clear (write_many (new 2 : CircularBuffer Nat) [1, 2]).2
      = (readLoop (write_many (new 2 : CircularBuffer Nat) [1, 2]).2
          (write_many (new 2 : CircularBuffer Nat) [1, 2]).2.size).2 ∧
    (clear (write_many (new 2 : CircularBuffer Nat) [1, 2]).2).index_start
      = ((write_many (new 2 : CircularBuffer Nat) [1, 2]).2.index_start
          + (write_many (new 2 : CircularBuffer Nat) [1, 2]).2.size)
        % (write_many (new 2 : CircularBuffer Nat) [1, 2]).2.capacity ∧
    (clear (write_many (new 2 : CircularBuffer Nat) [1, 2]).2).capacity
      = (write_many (new 2 : CircularBuffer Nat) [1, 2]).2.capacity ∧
    (clear (write_many (new 2 : CircularBuffer Nat) [1, 2]).2).buffer.length
      = (write_many (new 2 : CircularBuffer Nat) [1, 2]).2.buffer.length ∧
    (∀ j, j < (write_many (new 2 : CircularBuffer Nat) [1, 2]).2.size →
      (clear (write_many (new 2 : CircularBuffer Nat) [1, 2]).2).buffer.getD
        (((write_many (new 2 : CircularBuffer Nat) [1, 2]).2.index_start + j)
          % (write_many (new 2 : CircularBuffer Nat) [1, 2]).2.capacity) default
        = default) :=
  claim8_clear_drains _ (Reachable.write_many _ _ (Reachable.new 2))

/-- C9, counterexample: the claimed non-wrapping rendering rule does not match
the code.  After one write into a capacity-1 buffer the window is full and
`index_next_free` has wrapped back to 0, so `to_string` renders `"[_]"`, while
the claimed rule `start <= i < start + count` (no modular reduction) would
render `"[5]"`. -/
theorem claim9_render_counterexample :
    to_string (write (new 1 : CircularBuffer Nat) 5).2
      ≠ to_string_claim (write (new 1 : CircularBuffer Nat) 5).2 := by
  decide

/-- C9, amended: `to_string` renders every physical slot in order
`0 .. capacity`, comma-separated and bracketed, printing slot `i`'s element
exactly when `start <= i < (start + count) % capacity` — the upper bound is
the tracked (wrapping) next-free index, not the non-wrapping `start + count` —
and `"_"` for every other slot. -/
theorem claim9_render_window_amended [ToString α] (b : CircularBuffer α) (hI : Inv b) :
    to_string b = to_string_wrapped b := by
  unfold to_string to_string_wrapped
  rw [hI.hnext]

/-- C9 witness: the amended rendering rule at the counterexample state. -/
theorem claim9_render_window_amended_witness :
    to_string (write (new 1 : CircularBuffer Nat) 5).2
      = to_string_wrapped (write (new 1 : CircularBuffer Nat) 5).2 :=
  claim9_render_window_amended (write (new 1) 5).2
    ⟨rfl, by decide, Or.inl (by decide), rfl⟩

/-- C10: zero-capacity totality.  `new 0` succeeds and is simultaneously empty
and full; every `write` fails with `BufferFull`, `read` and `peek` fail with
`BufferEmpty`, the bulk operations fail (or trivially succeed on empty
requests) leaving the state unchanged, and `clear` is the identity.  The
`...G` conjuncts quantify over an arbitrary increment helper `inc`: the
results do not depend on it, so the helper — whose `capacity - 1` underflows
in Rust when `capacity == 0` — is never semantically reached; hence no public
operation panics.  The final conjunct records that in general `is_full` holds
iff `size = capacity` and `is_empty` iff `size = 0`, and that they coincide
only on a zero-capacity (hence zero-size) buffer. -/
theorem claim10_zero_capacity :
    (is_empty (new 0 : CircularBuffer α) = true) ∧
    (is_full (new 0 : CircularBuffer α) = true) ∧
    (∀ v : α, write (new 0) v = (Except.error BufError.bufferFull, new 0)) ∧
    (read (new 0 : CircularBuffer α) = (Except.error BufError.bufferEmpty, new 0)) ∧
    (peek (new 0 : CircularBuffer α) = Except.error BufError.bufferEmpty) ∧
    (∀ vs : List α, write_many (new 0) vs
      = if vs.isEmpty then (Except.ok (), new 0)
        else (Except.error BufError.insufficientSpace, new 0)) ∧
    (∀ k : Nat, read_many (new 0 : CircularBuffer α) k
      = if k = 0 then (Except.ok [], new 0)
        else (Except.error BufError.insufficientElements, new 0)) ∧
    (∀ k : Nat, peek_many (new 0 : CircularBuffer α) k
      = if k = 0 then Except.ok []
        else Except.error BufError.insufficientElements) ∧
    (clear (new 0 : CircularBuffer α) = new 0) ∧
    (∀ (inc : Nat → Nat) (v : α),
      writeG inc (new 0) v = (Except.error BufError.bufferFull, new 0)) ∧
    (∀ inc : Nat → Nat,
      readG inc (new 0 : CircularBuffer α) = (Except.error BufError.bufferEmpty, new 0)) ∧
    (∀ (inc : Nat → Nat) (vs : List α), write_manyG inc (new 0) vs
      = if vs.isEmpty then (Except.ok (), new 0)
        else (Except.error BufError.insufficientSpace, new 0)) ∧
    (∀ (inc : Nat → Nat) (k : Nat), read_manyG inc (new 0 : CircularBuffer α) k
      = if k = 0 then (Except.ok [], new 0)
        else (Except.error BufError.insufficientElements, new 0)) ∧
    (∀ (inc : Nat → Nat) (k : Nat), peek_manyG inc (new 0 : CircularBuffer α) k
      = if k = 0 then Except.ok []
        else Except.error BufError.insufficientElements) ∧
    (∀ inc : Nat → Nat, clearG inc (new 0 : CircularBuffer α) = new 0) ∧
    (∀ b : CircularBuffer α,
      (is_full b = true ↔ b.size = b.capacity) ∧
      (is_empty b = true ↔ b.size = 0) ∧
      ((is_full b = true ∧ is_empty b = true) ↔ (b.size = 0 ∧ b.capacity = 0))) := by
  refine ⟨rfl, rfl, fun v => rfl, rfl, rfl, fun vs => ?_, fun k => ?_, fun k => ?_,
    ?_, fun inc v => rfl, fun inc => rfl, fun inc vs => ?_, fun inc k => ?_,
    fun inc k => ?_, fun inc => ?_, fun b => ?_⟩
  · cases vs with
    | nil => rfl
    | cons v vs => simp [write_many, new]
  · cases k with
    | zero => rfl
    | succ k => simp [read_many, new]
  · cases k with
    | zero => rfl
    | succ k => simp [peek_many, new]
  · rw [clear]; rfl
  · cases vs with
    | nil => rfl
    | cons v vs => simp [write_manyG, new]
  · cases k with
    | zero => rfl
    | succ k => simp [read_manyG, new]
  · cases k with
    | zero => rfl
    | succ k => simp [peek_manyG, new]
  · rw [clearG]; rfl
  · refine ⟨by simp [is_full], by simp [is_empty], ?_⟩
    simp [is_full, is_empty]
    omega

end CircularBuffer
